import Mathlib

/-!
Verification of the raytracer's core algorithms against its specification.

The geometric and optical code (`material.rs`, `sphere.rs`,
`hittable_list.rs`, `scene_loader.rs`, `main.rs`) is embedded shallowly:
`f64` becomes `ℝ`, fallible results become `Option`, and the ambient
random number generator is passed as an explicit argument (the spec
treats the random source as an injected dependency).  The small support
modules (`vec3.rs`, `ray.rs`, `hittable.rs`) are not part of the
provided sources; their definitions are modelled from the spec and
marked as such.
-/

noncomputable section

/-- Modelled from the spec: a 3-component real vector (`vec3.rs` is not
in the provided sources).  Colors and points are the same type. -/
structure Vec3 where
  x : ℝ
  y : ℝ
  z : ℝ
  deriving DecidableEq

abbrev Point3 := Vec3
abbrev Color := Vec3

instance : Add Vec3 := ⟨fun u v => ⟨u.x + v.x, u.y + v.y, u.z + v.z⟩⟩

instance : Sub Vec3 := ⟨fun u v => ⟨u.x - v.x, u.y - v.y, u.z - v.z⟩⟩

instance : Neg Vec3 := ⟨fun v => ⟨-v.x, -v.y, -v.z⟩⟩

instance : SMul ℝ Vec3 := ⟨fun k v => ⟨k * v.x, k * v.y, k * v.z⟩⟩

instance : HDiv Vec3 ℝ Vec3 := ⟨fun v k => ⟨v.x / k, v.y / k, v.z / k⟩⟩

/-- Modelled from the spec: dot product of two vectors. -/
def Vec3.dot (u v : Vec3) : ℝ := u.x * v.x + u.y * v.y + u.z * v.z

/-- Modelled from the spec: squared Euclidean length. -/
def length_squared (v : Vec3) : ℝ := v.dot v

/-- Modelled from the spec: Euclidean length. -/
def Vec3.length (v : Vec3) : ℝ := Real.sqrt (length_squared v)

/-- Modelled from the spec: normalization to a unit vector. -/
def unit_vector (v : Vec3) : Vec3 := v / v.length

/-- Modelled from the spec: test for a numerically degenerate
(near-zero) vector, with the customary 1e-8 threshold. -/
def near_zero (v : Vec3) : Prop := |v.x| < 1e-8 ∧ |v.y| < 1e-8 ∧ |v.z| < 1e-8

instance (v : Vec3) : Decidable (near_zero v) := by
  unfold near_zero; infer_instance

/-- Modelled from the spec: mirror reflection of `v` about the unit
normal `n`. -/
def reflect (v n : Vec3) : Vec3 := v - (2 * v.dot n) • n

/-- Modelled from the spec: Snell-law refraction of the unit vector
`uv` at a surface of unit normal `n` with refraction ratio `eta`. -/
def refract (uv n : Vec3) (eta : ℝ) : Vec3 :=
  let cos_theta := min ((-uv).dot n) 1
  let r_out_perp := eta • (uv + cos_theta • n)
  let r_out_parallel := (-Real.sqrt |1 - length_squared r_out_perp|) • n
  r_out_perp + r_out_parallel

/-- Modelled from the spec: a ray is an origin, a direction and a time
value (`ray.rs` is not in the provided sources). -/
structure Ray where
  origin : Point3
  direction : Vec3
  time : ℝ

/-- Modelled from the spec: `Ray::new` takes an optional time value;
every call site in the sources passes `Some(time)`, so the default used
for `None` (taken as 0 here) is never observable in the claims. -/
def Ray.new (origin : Point3) (direction : Vec3) (time : Option ℝ) : Ray :=
  ⟨origin, direction, time.getD 0⟩

/-- Modelled from the spec: `ray.at(t) = origin + t*direction`. -/
def Ray.at (r : Ray) (t : ℝ) : Point3 := r.origin + t • r.direction

/-- Modelled from the spec: a hit record carries the hit point, the
oriented unit normal, the surface's material, the ray parameter `t`,
and the `front_face` flag (`hittable.rs` is not in the provided
sources). -/
structure HitRecord (M : Type) where
  p : Point3
  normal : Vec3
  material : M
  t : ℝ
  front_face : Bool

/-- Modelled from the spec: `HitRecord::new(p, normal, material, t)`
is a pure constructor of exactly these four arguments; the initial
`front_face` value before `set_face_normal` is applied is not
specified, so it is a fixed constant here. -/
def HitRecord.new {M : Type} (p : Point3) (normal : Vec3) (material : M) (t : ℝ) :
    HitRecord M :=
  ⟨p, normal, material, t, true⟩

/-- Modelled from the spec: `front_face` is true iff the ray direction
and the outward geometric normal have negative dot product, and the
stored normal is flipped to point against the ray. -/
def HitRecord.set_face_normal {M : Type} (rec : HitRecord M) (r : Ray)
    (outward_normal : Vec3) : HitRecord M :=
  let ff : Bool := decide (r.direction.dot outward_normal < 0)
  { rec with
    front_face := ff
    normal := if ff then outward_normal else -outward_normal }

/- ## Materials (`material.rs`) -/

/-- `Lambertian` material: an albedo color. -/
structure Lambertian where
  albedo : Color

/-- `Lambertian::new`. -/
def Lambertian.new (albedo : Color) : Lambertian := ⟨albedo⟩

/-- `Lambertian::scatter`; the draw of `random_unit_vector()` is passed
explicitly as `ruv`. -/
def Lambertian.scatter {M : Type} (self : Lambertian) (r_in : Ray)
    (rec : HitRecord M) (ruv : Vec3) : Option (Ray × Color) :=
  let scatter_direction := rec.normal + ruv
  let scatter_direction :=
    if near_zero scatter_direction then rec.normal else scatter_direction
  some (Ray.new rec.p scatter_direction (some r_in.time), self.albedo)

/-- `Metal` material: an albedo color and a fuzz factor. -/
structure Metal where
  albedo : Color
  fuzz : ℝ

/-- `Metal::new`: the fuzz argument is stored as `fuzz.min(1.0)`. -/
def Metal.new (albedo : Color) (fuzz : ℝ) : Metal :=
  ⟨albedo, min fuzz 1⟩

/-- `Metal::scatter`; the draw of `random_in_unit_sphere()` is passed
explicitly as `rius`. -/
def Metal.scatter {M : Type} (self : Metal) (r_in : Ray)
    (rec : HitRecord M) (rius : Vec3) : Option (Ray × Color) :=
  let reflected := reflect (unit_vector r_in.direction) rec.normal
  some (Ray.new rec.p (reflected + self.fuzz • rius) (some r_in.time), self.albedo)

/-- `Dielectric` material: an index of refraction. -/
structure Dielectric where
  ir : ℝ

/-- `Dielectric::new`. -/
def Dielectric.new (ir : ℝ) : Dielectric := ⟨ir⟩

/-- `Dielectric::reflectance(cosine, ref_idx)` exactly as written in
the source: `r0 + (1.0 + r0) * (1.0 - cosine).powi(5)` with
`r0 = ((1.0 - ref_idx) / (1.0 + ref_idx)).powi(2)`. -/
def Dielectric.reflectance (cosine ref_idx : ℝ) : ℝ :=
  let r0 := ((1 - ref_idx) / (1 + ref_idx)) ^ 2
  r0 + (1 + r0) * (1 - cosine) ^ 5

/-- The Schlick approximation as the spec states it:
`r0 + (1 - r0) * (1 - cos_theta)^5` with
`r0 = ((1 - ior) / (1 + ior))^2`.  Written from the spec's words, to be
compared with `Dielectric.reflectance` above. -/
def schlickReflectanceSpec (cosine ref_idx : ℝ) : ℝ :=
  let r0 := ((1 - ref_idx) / (1 + ref_idx)) ^ 2
  r0 + (1 - r0) * (1 - cosine) ^ 5

/-- `Dielectric::scatter`; the draw of `random_double()` is passed
explicitly as `rand`. -/
def Dielectric.scatter {M : Type} (self : Dielectric) (r_in : Ray)
    (rec : HitRecord M) (rand : ℝ) : Option (Ray × Color) :=
  let attenuation : Color := ⟨1, 1, 1⟩
  let eta := if rec.front_face then 1 / self.ir else self.ir
  let unit_direction := unit_vector r_in.direction
  let cos_theta := min ((-unit_direction).dot rec.normal) 1
  let sin_theta := Real.sqrt (1 - cos_theta * cos_theta)
  let cannot_refract := eta * sin_theta > 1
  let direction :=
    if cannot_refract ∨ Dielectric.reflectance cos_theta eta > rand then
      reflect unit_direction rec.normal
    else
      refract unit_direction rec.normal eta
  some (Ray.new rec.p direction (some r_in.time), attenuation)

/- ## Spheres (`sphere.rs`) -/

/-- A sphere: center, radius and material. -/
structure Sphere (M : Type) where
  center : Point3
  radius : ℝ
  material : M

/-- The quadratic coefficient `a = |direction|²` of the ray-sphere
quadratic (it depends only on the ray). -/
def rayA (r : Ray) : ℝ := length_squared r.direction

/-- The half-coefficient `half_b = (origin - center)·direction`. -/
def Sphere.halfB {M : Type} (self : Sphere M) (r : Ray) : ℝ :=
  (r.origin - self.center).dot r.direction

/-- The constant coefficient `c = |origin - center|² - radius²`. -/
def Sphere.cVal {M : Type} (self : Sphere M) (r : Ray) : ℝ :=
  length_squared (r.origin - self.center) - self.radius * self.radius

/-- The discriminant `half_b² - a·c` of the ray-sphere quadratic. -/
def Sphere.disc {M : Type} (self : Sphere M) (r : Ray) : ℝ :=
  self.halfB r * self.halfB r - rayA r * self.cVal r

/-- The first root tried by `Sphere::hit`: `(-half_b - sqrtd) / a`. -/
def Sphere.root1 {M : Type} (self : Sphere M) (r : Ray) : ℝ :=
  (-self.halfB r - Real.sqrt (self.disc r)) / rayA r

/-- The second root tried by `Sphere::hit`: `(-half_b + sqrtd) / a`. -/
def Sphere.root2 {M : Type} (self : Sphere M) (r : Ray) : ℝ :=
  (-self.halfB r + Real.sqrt (self.disc r)) / rayA r

/-- The root-selection prelude of `Sphere::hit`: `None` if the
discriminant is negative, otherwise the nearest root lying in
`[t_min, t_max]` (the `return None` early exits of the source become
`none` here). -/
def Sphere.hitRoot {M : Type} (self : Sphere M) (r : Ray) (t_min t_max : ℝ) : Option ℝ :=
  let oc := r.origin - self.center
  let a := length_squared r.direction
  let half_b := oc.dot r.direction
  let c := length_squared oc - self.radius * self.radius
  let discriminant := half_b * half_b - a * c
  if discriminant < 0 then none
  else
    let sqrtd := Real.sqrt discriminant
    let root := (-half_b - sqrtd) / a
    if root < t_min ∨ t_max < root then
      let root := (-half_b + sqrtd) / a
      if root < t_min ∨ t_max < root then none else some root
    else some root

/-- The record-construction tail of `Sphere::hit` at parameter `root`:
`HitRecord::new` followed by `set_face_normal`. -/
def Sphere.mkRec {M : Type} (self : Sphere M) (r : Ray) (root : ℝ) : HitRecord M :=
  let t := root
  let p := r.at t
  let rec0 := HitRecord.new p ((p - self.center) / self.radius) self.material t
  let outward_normal := (rec0.p - self.center) / self.radius
  rec0.set_face_normal r outward_normal

/-- `Sphere::hit`: select the nearest acceptable root, then build the
hit record for it. -/
def Sphere.hit {M : Type} (self : Sphere M) (r : Ray) (t_min t_max : ℝ) :
    Option (HitRecord M) :=
  (self.hitRoot r t_min t_max).map (self.mkRec r)


/- ## Composite list (`hittable_list.rs`) -/

/-- `HittableList::hit`, generic over the member surface type exactly
as the Rust impl is generic over a `Hittable` member type: iterate the
members, narrowing the upper bound to the closest hit found so far,
and return the last (nearest) record found. -/
def HittableList.hit {A M : Type} (objHit : A → Ray → ℝ → ℝ → Option (HitRecord M))
    (objects : List A) (r : Ray) (t_min t_max : ℝ) : Option (HitRecord M) :=
  (objects.foldl
      (fun acc object =>
        match objHit object r t_min acc.2 with
        | some hrec => (some hrec, hrec.t)
        | none => acc)
      ((none : Option (HitRecord M)), t_max)).1

/-- The loop body of `HittableList::hit`, named for the proofs: the
accumulator is the pair (closest record so far, `closest_so_far`). -/
def hitStep {A M : Type} (objHit : A → Ray → ℝ → ℝ → Option (HitRecord M))
    (r : Ray) (t_min : ℝ) (acc : Option (HitRecord M) × ℝ) (object : A) :
    Option (HitRecord M) × ℝ :=
  match objHit object r t_min acc.2 with
  | some hrec => (some hrec, hrec.t)
  | none => acc

/- ## Scene objects (`scene_loader.rs`) -/

/-- `StartEndPair` of `scene_loader.rs`; the Rust field `end` is a Lean
keyword and is called `stop` here. -/
structure StartEndPair (T : Type) where
  start : T
  stop : T

/-- The outcomes of the three process-wide random draws used by the
material scatter functions, passed as an explicit argument (the spec
treats the random source as an injected dependency):
`random_double()`, `random_unit_vector()` and
`random_in_unit_sphere()`. -/
structure RandDraws where
  double : ℝ
  unitVec : Vec3
  inSphere : Vec3

/-- The untagged material enum of `scene_loader.rs`. -/
inductive SceneMaterial where
  | metal (albedo : Color) (fuzz : ℝ)
  | lambertian (albedo : Color)
  | dielectric (ir : ℝ)

/-- `Material::scatter` of `scene_loader.rs`: each arm builds the
concrete material, rebuilds the hit record with `HitRecord::new` from
the original record's point, normal and `t` (plus the new material),
and delegates to the concrete scatter.  (The Rust `Color` conversion
between the loader's `Color` struct and `vec3::Color` is the identity
here, the embedding having a single color type.) -/
def SceneMaterial.scatter (self : SceneMaterial) (r_in : Ray)
    (rec : HitRecord SceneMaterial) (rng : RandDraws) : Option (Ray × Color) :=
  match self with
  | .metal albedo fuzz =>
      let material := Metal.new albedo fuzz
      let rec' := HitRecord.new rec.p rec.normal material rec.t
      material.scatter r_in rec' rng.inSphere
  | .lambertian albedo =>
      let material := Lambertian.new albedo
      let rec' := HitRecord.new rec.p rec.normal material rec.t
      material.scatter r_in rec' rng.unitVec
  | .dielectric ir =>
      let material := Dielectric.new ir
      let rec' := HitRecord.new rec.p rec.normal material rec.t
      material.scatter r_in rec' rng.double

/-- Modelled from the spec: `MovingSphere` (`moving_sphere.rs` is not
in the provided sources) holds start/end centers, start/end times, a
radius and a material. -/
structure MovingSphere (M : Type) where
  center : StartEndPair Point3
  time : StartEndPair ℝ
  radius : ℝ
  material : M

/-- Modelled from the spec: the center linearly interpolated by the
ray's time value using `(time - time_start) / (time_end - time_start)`. -/
def MovingSphere.center_at {M : Type} (self : MovingSphere M) (t : ℝ) : Point3 :=
  self.center.start +
    ((t - self.time.start) / (self.time.stop - self.time.start)) •
      (self.center.stop - self.center.start)

/-- Modelled from the spec: a moving sphere performs the identical
sphere test against the interpolated center. -/
def MovingSphere.hit {M : Type} (self : MovingSphere M) (r : Ray)
    (t_min t_max : ℝ) : Option (HitRecord M) :=
  (Sphere.mk (self.center_at r.time) self.radius self.material).hit r t_min t_max

/-- The untagged scene object enum of `scene_loader.rs`: a static
sphere or a moving sphere. -/
inductive Object where
  | sphere (center : Point3) (radius : ℝ) (material : SceneMaterial)
  | movingSphere (center : StartEndPair Point3) (time : StartEndPair ℝ)
      (radius : ℝ) (material : SceneMaterial)

/-- `Hittable for Object` of `scene_loader.rs`: build the concrete
surface and delegate to its hit test. -/
def Object.hit (self : Object) (r : Ray) (t_min t_max : ℝ) :
    Option (HitRecord SceneMaterial) :=
  match self with
  | .sphere center radius material =>
      (Sphere.mk center radius material).hit r t_min t_max
  | .movingSphere center time radius material =>
      (MovingSphere.mk center time radius material).hit r t_min t_max

/- ## Recursive color evaluation (`main.rs`) -/

/-- `ray_color` of `main.rs`.  The world is abstract, as in the Rust
generic `fn ray_color<H: Hittable>`: `worldHit world r` stands for
`world.hit(r, 0.001, INFINITY)` (the fixed interval is folded into the
abstract hit function because `ℝ` has no infinity), and `scatterM`
gives each material's scatter law, its random draws folded in.  Depth
0 returns black; a hit scatters and recurses with depth - 1,
multiplying componentwise by the attenuation; a miss returns the sky
gradient. -/
def ray_color {W M : Type} (worldHit : W → Ray → Option (HitRecord M))
    (scatterM : M → Ray → HitRecord M → Option (Ray × Color)) (world : W) :
    Ray → ℕ → Color
  | _, 0 => ⟨0, 0, 0⟩
  | r, d + 1 =>
    match worldHit world r with
    | some hrec =>
      match scatterM hrec.material r hrec with
      | some (scattered_ray, attenuation) =>
          let c := ray_color worldHit scatterM world scattered_ray d
          ⟨c.x * attenuation.x, c.y * attenuation.y, c.z * attenuation.z⟩
      | none => ⟨0, 0, 0⟩
    | none =>
      let unit_direction := unit_vector r.direction
      let t := 0.5 * (unit_direction.y + 1)
      (1 - t) • (⟨1, 1, 1⟩ : Color) + t • (⟨0.5, 0.7, 1⟩ : Color)

/- ## Render pipeline (`main.rs`, worker spawn and collector loop) -/

/-- Pixels of the given rows (in the order given), each row's columns
in ascending order: `pixel j i` is the color worker code computes for
row `j`, column `i`. -/
def rowsPixels {Pix : Type} (pixel : ℕ → ℕ → Pix) (w : ℕ) : List ℕ → List Pix
  | [] => []
  | j :: rest => (List.range w).map (pixel j) ++ rowsPixels pixel w rest

/-- The rows assigned to worker `n` out of `n_cpus`, iterated in the
order of the worker loop: `(0..h).filter(j % num_cpus == n).rev()`. -/
def workerRows (h n_cpus n : ℕ) : List ℕ :=
  ((List.range h).filter (fun j => j % n_cpus = n)).reverse

/-- The full sequence of pixels worker `n` sends to its private FIFO
channel, in program order. -/
def workerEmissions {Pix : Type} (pixel : ℕ → ℕ → Pix) (w h n_cpus n : ℕ) :
    List Pix :=
  rowsPixels pixel w (workerRows h n_cpus n)

/-- The collector loop of `main.rs`: for each row `j` (iterated over
the given list), receive exactly `w` pixels from the channel of worker
`j % num_cpus` and append them to the buffer.  `chans` maps each
worker to the remaining contents of its FIFO channel. -/
def collectRows {Pix : Type} (w n_cpus : ℕ) :
    List ℕ → (ℕ → List Pix) → List Pix
  | [], _ => []
  | j :: rest, chans =>
      (chans (j % n_cpus)).take w ++
        collectRows w n_cpus rest
          (fun m => if m = j % n_cpus then (chans (j % n_cpus)).drop w else chans m)

/-- The image buffer assembled by the collector: rows `j` from `h - 1`
down to `0`, reading `w` pixels per row from channel `j % n_cpus`. -/
def assembleImage {Pix : Type} (w h n_cpus : ℕ) (chans : ℕ → List Pix) :
    List Pix :=
  collectRows w n_cpus ((List.range h).reverse) chans

/-- The sequential reference assembly: rows in descending `j` order,
columns ascending. -/
def sequentialImage {Pix : Type} (pixel : ℕ → ℕ → Pix) (w h : ℕ) : List Pix :=
  rowsPixels pixel w ((List.range h).reverse)

/- ## Coherence properties of a member hit function -/

/-- A hit returned within `[t_min, tm]` has its `t` in that interval. -/
def HitValid {A M : Type} (objHit : A → Ray → ℝ → ℝ → Option (HitRecord M))
    (r : Ray) (t_min : ℝ) : Prop :=
  ∀ x tm hrec, objHit x r t_min tm = some hrec → t_min ≤ hrec.t ∧ hrec.t ≤ tm

/-- Narrowing the upper bound preserves a miss. -/
def HitNoneMono {A M : Type} (objHit : A → Ray → ℝ → ℝ → Option (HitRecord M))
    (r : Ray) (t_min : ℝ) : Prop :=
  ∀ x tm tm', tm' ≤ tm → objHit x r t_min tm = none → objHit x r t_min tm' = none

/-- Narrowing the upper bound keeps a hit whose `t` still fits. -/
def HitSomeMono {A M : Type} (objHit : A → Ray → ℝ → ℝ → Option (HitRecord M))
    (r : Ray) (t_min : ℝ) : Prop :=
  ∀ x tm tm' hrec, tm' ≤ tm → objHit x r t_min tm = some hrec → hrec.t ≤ tm' →
    objHit x r t_min tm' = some hrec

/-- Narrowing the upper bound below the hit's `t` produces a miss:
the returned hit is the member's nearest one. -/
def HitCut {A M : Type} (objHit : A → Ray → ℝ → ℝ → Option (HitRecord M))
    (r : Ray) (t_min : ℝ) : Prop :=
  ∀ x tm tm' hrec, tm' ≤ tm → objHit x r t_min tm = some hrec → tm' < hrec.t →
    objHit x r t_min tm' = none

/- ## Theorems -/

/-- Simp lemmas exposing the componentwise vector operations. -/
theorem Vec3.sub_def (u v : Vec3) : u - v = ⟨u.x - v.x, u.y - v.y, u.z - v.z⟩ := rfl

theorem Vec3.add_def (u v : Vec3) : u + v = ⟨u.x + v.x, u.y + v.y, u.z + v.z⟩ := rfl

theorem Vec3.neg_def (v : Vec3) : -v = ⟨-v.x, -v.y, -v.z⟩ := rfl

theorem Vec3.smul_def (k : ℝ) (v : Vec3) : k • v = ⟨k * v.x, k * v.y, k * v.z⟩ := rfl

theorem Vec3.hdiv_def (v : Vec3) (k : ℝ) : v / k = ⟨v.x / k, v.y / k, v.z / k⟩ := rfl

/- ## Claims C1, C2, C6, C7 -/

/-- Claim C1: the claim states that `Dielectric::reflectance` computes
the Schlick approximation `r0 + (1 - r0) * (1 - cos_theta)^5`; the code
instead computes `r0 + (1 + r0) * (1 - cosine)^5`, contradicting its
own comment.  At `cosine = 0`, `ref_idx = 3` the code yields `3/2`
while the Schlick formula yields `1`. -/
theorem dielectric_reflectance_not_schlick :
    Dielectric.reflectance 0 3 = 3 / 2 ∧
    schlickReflectanceSpec 0 3 = 1 ∧
    Dielectric.reflectance 0 3 ≠ schlickReflectanceSpec 0 3 := by
  unfold Dielectric.reflectance schlickReflectanceSpec
  norm_num

/-- Claim C2, counterexample: `Metal::new` with fuzz `-1` stores `-1`,
which does not lie in `[0, 1]`: the claimed clamping to `[0, 1]` fails
below 0. -/
theorem metal_new_fuzz_counterexample :
    (Metal.new ⟨1, 1, 1⟩ (-1)).fuzz < 0 := by
  unfold Metal.new
  norm_num

/-- Claim C2, amended: the fuzz stored by `Metal::new` is `min f 1`: it
is at most 1, equals `f` whenever `f ≤ 1`, and is nonnegative whenever
`f` is; in particular it lies in `[0, 1]` and equals `f` when
`f ∈ [0, 1]`, but a negative `f` is stored unchanged. -/
theorem metal_new_fuzz_min (albedo : Color) (f : ℝ) :
    (Metal.new albedo f).fuzz ≤ 1 ∧
    (f ≤ 1 → (Metal.new albedo f).fuzz = f) ∧
    (0 ≤ f → 0 ≤ (Metal.new albedo f).fuzz) := by
  unfold Metal.new
  refine ⟨min_le_right _ _, fun h => min_eq_left h, fun h => le_min h zero_le_one⟩

/-- Claim C2, witness: at `f = 1/2` the hypotheses hold and the stored
fuzz is `1/2`. -/
theorem metal_new_fuzz_min_witness :
    (Metal.new ⟨1, 1, 1⟩ (1 / 2)).fuzz ≤ 1 ∧
    (Metal.new ⟨1, 1, 1⟩ (1 / 2)).fuzz = 1 / 2 ∧
    0 ≤ (Metal.new ⟨1, 1, 1⟩ (1 / 2)).fuzz :=
  ⟨(metal_new_fuzz_min ⟨1, 1, 1⟩ (1 / 2)).1,
   (metal_new_fuzz_min ⟨1, 1, 1⟩ (1 / 2)).2.1 (by norm_num),
   (metal_new_fuzz_min ⟨1, 1, 1⟩ (1 / 2)).2.2 (by norm_num)⟩

/-- Claim C6: for every incoming ray, hit record and random draw, the
scatter method of each of the three materials returns `Some`; it never
returns `None`. -/
theorem scatter_always_some {M : Type} (r_in : Ray) (rec : HitRecord M)
    (lam : Lambertian) (met : Metal) (die : Dielectric)
    (ruv rius : Vec3) (rand : ℝ) :
    (lam.scatter r_in rec ruv).isSome ∧
    (met.scatter r_in rec rius).isSome ∧
    (die.scatter r_in rec rand).isSome :=
  ⟨rfl, rfl, rfl⟩

/-- Claim C7: the outgoing ray produced by the scatter method of each
of the three materials carries the incoming ray's time value
unchanged. -/
theorem scatter_preserves_time {M : Type} (r_in : Ray) (rec : HitRecord M)
    (lam : Lambertian) (met : Metal) (die : Dielectric)
    (ruv rius : Vec3) (rand : ℝ) :
    (lam.scatter r_in rec ruv).map (fun out => out.1.time) = some r_in.time ∧
    (met.scatter r_in rec rius).map (fun out => out.1.time) = some r_in.time ∧
    (die.scatter r_in rec rand).map (fun out => out.1.time) = some r_in.time :=
  ⟨rfl, rfl, rfl⟩

theorem Sphere.mkRec_t {M : Type} (self : Sphere M) (r : Ray) (root : ℝ) :
    (self.mkRec r root).t = root := rfl

theorem Sphere.hitRoot_eq {M : Type} (self : Sphere M) (r : Ray) (t_min t_max : ℝ) :
    self.hitRoot r t_min t_max =
      if self.disc r < 0 then none
      else if self.root1 r < t_min ∨ t_max < self.root1 r then
        if self.root2 r < t_min ∨ t_max < self.root2 r then none
        else some (self.root2 r)
      else some (self.root1 r) := rfl

theorem Sphere.root1_le_root2 {M : Type} (self : Sphere M) (r : Ray)
    (ha : 0 < rayA r) : self.root1 r ≤ self.root2 r := by
  unfold Sphere.root1 Sphere.root2
  have hs := Real.sqrt_nonneg (self.disc r)
  exact div_le_div_of_nonneg_right (by linarith) ha.le

/-- Characterization of the selected root. -/
theorem Sphere.hitRoot_eq_some_iff {M : Type} (self : Sphere M) (r : Ray)
    {t_min t_max t : ℝ} :
    self.hitRoot r t_min t_max = some t ↔
      0 ≤ self.disc r ∧
        ((t = self.root1 r ∧ t_min ≤ self.root1 r ∧ self.root1 r ≤ t_max) ∨
         (t = self.root2 r ∧ (self.root1 r < t_min ∨ t_max < self.root1 r) ∧
            t_min ≤ self.root2 r ∧ self.root2 r ≤ t_max)) := by
  rw [Sphere.hitRoot_eq]
  split_ifs with h1 h2 h3
  · constructor
    · intro h; exact absurd h (by simp)
    · rintro ⟨hd, _⟩; linarith
  · constructor
    · intro h; exact absurd h (by simp)
    · rintro ⟨hd, ⟨_, hlo, hhi⟩ | ⟨_, _, hlo, hhi⟩⟩
      · rcases h2 with h | h <;> linarith
      · rcases h3 with h | h <;> linarith
  · rw [Option.some.injEq]
    constructor
    · intro h
      push_neg at h1 h3
      exact ⟨h1, Or.inr ⟨h.symm, h2, h3.1, h3.2⟩⟩
    · rintro ⟨hd, ⟨ht, hlo, hhi⟩ | ⟨ht, _, _, _⟩⟩
      · rcases h2 with h | h <;> linarith
      · exact ht.symm
  · rw [Option.some.injEq]
    constructor
    · intro h
      push_neg at h1 h2
      exact ⟨h1, Or.inl ⟨h.symm, h2.1, h2.2⟩⟩
    · rintro ⟨hd, ⟨ht, _, _⟩ | ⟨ht, hbad, _, _⟩⟩
      · exact ht.symm
      · push_neg at h2
        rcases hbad with h | h <;> linarith [h2.1, h2.2]

/-- Characterization of root rejection. -/
theorem Sphere.hitRoot_eq_none_iff {M : Type} (self : Sphere M) (r : Ray)
    {t_min t_max : ℝ} :
    self.hitRoot r t_min t_max = none ↔
      self.disc r < 0 ∨
        ((self.root1 r < t_min ∨ t_max < self.root1 r) ∧
         (self.root2 r < t_min ∨ t_max < self.root2 r)) := by
  rw [Sphere.hitRoot_eq]
  split_ifs with h1 h2 h3
  · simp [h1]
  · simp [h2, h3]
  · simp only [Option.some_ne_none (self.root2 r), false_iff]
    push_neg at h1 h3
    rintro (h | ⟨_, hr2⟩)
    · linarith
    · rcases hr2 with h | h <;> linarith [h3.1, h3.2]
  · simp only [Option.some_ne_none (self.root1 r), false_iff]
    push_neg at h1 h2
    rintro (h | ⟨hr1, _⟩)
    · linarith
    · rcases hr1 with h | h <;> linarith [h2.1, h2.2]

theorem Sphere.hitRoot_valid {M : Type} (self : Sphere M) (r : Ray)
    {t_min t_max t : ℝ} (h : self.hitRoot r t_min t_max = some t) :
    t_min ≤ t ∧ t ≤ t_max := by
  rw [Sphere.hitRoot_eq_some_iff] at h
  rcases h with ⟨_, ⟨ht, hlo, hhi⟩ | ⟨ht, _, hlo, hhi⟩⟩ <;> subst ht <;> exact ⟨hlo, hhi⟩

/-- Narrowing the upper bound preserves root rejection. -/
theorem Sphere.hitRoot_none_mono {M : Type} (self : Sphere M) (r : Ray)
    {t_min t_max t_max' : ℝ} (hle : t_max' ≤ t_max)
    (h : self.hitRoot r t_min t_max = none) :
    self.hitRoot r t_min t_max' = none := by
  rw [Sphere.hitRoot_eq_none_iff] at h ⊢
  rcases h with h | ⟨h1, h2⟩
  · exact Or.inl h
  · refine Or.inr ⟨?_, ?_⟩
    · rcases h1 with h | h
      exacts [Or.inl h, Or.inr (by linarith)]
    · rcases h2 with h | h
      exacts [Or.inl h, Or.inr (by linarith)]

/-- Narrowing the upper bound past the selected root keeps it selected. -/
theorem Sphere.hitRoot_some_mono {M : Type} (self : Sphere M) (r : Ray)
    {t_min t_max t_max' t : ℝ} (hle : t_max' ≤ t_max)
    (h : self.hitRoot r t_min t_max = some t) (ht : t ≤ t_max') :
    self.hitRoot r t_min t_max' = some t := by
  rw [Sphere.hitRoot_eq_some_iff] at h ⊢
  obtain ⟨hd, hcase⟩ := h
  refine ⟨hd, ?_⟩
  rcases hcase with ⟨ht1, hlo, _⟩ | ⟨ht2, hrej, hlo, _⟩
  · exact Or.inl ⟨ht1, hlo, by rw [← ht1]; exact ht⟩
  · refine Or.inr ⟨ht2, ?_, hlo, by rw [← ht2]; exact ht⟩
    rcases hrej with h | h
    exacts [Or.inl h, Or.inr (by linarith)]

/-- Narrowing the upper bound below the selected root rejects the
sphere entirely (the selected root is the nearest acceptable one). -/
theorem Sphere.hitRoot_cut {M : Type} (self : Sphere M) (r : Ray)
    {t_min t_max t_max' t : ℝ} (ha : 0 < rayA r) (hle : t_max' ≤ t_max)
    (h : self.hitRoot r t_min t_max = some t) (ht : t_max' < t) :
    self.hitRoot r t_min t_max' = none := by
  have h12 := self.root1_le_root2 r ha
  rw [Sphere.hitRoot_eq_some_iff] at h
  rw [Sphere.hitRoot_eq_none_iff]
  obtain ⟨_, hcase⟩ := h
  rcases hcase with ⟨ht1, _, _⟩ | ⟨ht2, hrej, _, _⟩
  · exact Or.inr ⟨Or.inr (by linarith), Or.inr (by linarith)⟩
  · refine Or.inr ⟨?_, Or.inr (by linarith)⟩
    rcases hrej with h | h
    exacts [Or.inl h, Or.inr (by linarith)]

theorem Sphere.hit_eq_some_iff {M : Type} (self : Sphere M) (r : Ray)
    {t_min t_max : ℝ} {hrec : HitRecord M} :
    self.hit r t_min t_max = some hrec ↔
      ∃ t, self.hitRoot r t_min t_max = some t ∧ self.mkRec r t = hrec := by
  unfold Sphere.hit
  cases h : self.hitRoot r t_min t_max <;> simp [h]

theorem Sphere.hit_eq_none_iff {M : Type} (self : Sphere M) (r : Ray)
    {t_min t_max : ℝ} :
    self.hit r t_min t_max = none ↔ self.hitRoot r t_min t_max = none := by
  unfold Sphere.hit
  cases h : self.hitRoot r t_min t_max <;> simp [h]

theorem Sphere.hit_valid {M : Type} (self : Sphere M) (r : Ray)
    {t_min t_max : ℝ} {hrec : HitRecord M}
    (h : self.hit r t_min t_max = some hrec) :
    t_min ≤ hrec.t ∧ hrec.t ≤ t_max := by
  obtain ⟨t, hroot, hmk⟩ := (Sphere.hit_eq_some_iff self r).mp h
  have hv := Sphere.hitRoot_valid self r hroot
  rw [← hmk, Sphere.mkRec_t]
  exact hv

theorem Sphere.hit_none_mono {M : Type} (self : Sphere M) (r : Ray)
    {t_min t_max t_max' : ℝ} (hle : t_max' ≤ t_max)
    (h : self.hit r t_min t_max = none) :
    self.hit r t_min t_max' = none := by
  rw [Sphere.hit_eq_none_iff] at h ⊢
  exact Sphere.hitRoot_none_mono self r hle h

theorem Sphere.hit_some_mono {M : Type} (self : Sphere M) (r : Ray)
    {t_min t_max t_max' : ℝ} {hrec : HitRecord M} (hle : t_max' ≤ t_max)
    (h : self.hit r t_min t_max = some hrec) (ht : hrec.t ≤ t_max') :
    self.hit r t_min t_max' = some hrec := by
  obtain ⟨t, hroot, hmk⟩ := (Sphere.hit_eq_some_iff self r).mp h
  have ht' : t ≤ t_max' := by
    rw [← hmk, Sphere.mkRec_t] at ht
    exact ht
  exact (Sphere.hit_eq_some_iff self r).mpr
    ⟨t, Sphere.hitRoot_some_mono self r hle hroot ht', hmk⟩

theorem Sphere.hit_cut {M : Type} (self : Sphere M) (r : Ray)
    {t_min t_max t_max' : ℝ} {hrec : HitRecord M} (ha : 0 < rayA r)
    (hle : t_max' ≤ t_max) (h : self.hit r t_min t_max = some hrec)
    (ht : t_max' < hrec.t) :
    self.hit r t_min t_max' = none := by
  obtain ⟨t, hroot, hmk⟩ := (Sphere.hit_eq_some_iff self r).mp h
  have ht' : t_max' < t := by
    rw [← hmk, Sphere.mkRec_t] at ht
    exact ht
  rw [Sphere.hit_eq_none_iff]
  exact Sphere.hitRoot_cut self r ha hle hroot ht'

/-- Claim C4: `Sphere::hit` returns `None` when the discriminant of
the ray-sphere quadratic is negative; otherwise it returns a record
whose `t` is the smaller root `(-half_b - sqrtd)/a` when that lies in
`[t_min, t_max]`, else the larger root `(-half_b + sqrtd)/a` when that
lies in the interval, else `None`; and any returned `t` satisfies
`t_min ≤ t ≤ t_max`.  The hypothesis `0 < rayA r` (nonzero ray
direction) makes the quadratic genuine, so `root1` is the smaller
root. -/
theorem sphere_hit_quadratic_roots {M : Type} (s : Sphere M) (r : Ray)
    (t_min t_max : ℝ) (ha : 0 < rayA r) :
    (s.disc r < 0 → s.hit r t_min t_max = none) ∧
    (0 ≤ s.disc r →
      s.root1 r ≤ s.root2 r ∧
      ((t_min ≤ s.root1 r ∧ s.root1 r ≤ t_max) →
        ∃ hrec, s.hit r t_min t_max = some hrec ∧ hrec.t = s.root1 r) ∧
      (¬(t_min ≤ s.root1 r ∧ s.root1 r ≤ t_max) →
        (t_min ≤ s.root2 r ∧ s.root2 r ≤ t_max) →
        ∃ hrec, s.hit r t_min t_max = some hrec ∧ hrec.t = s.root2 r) ∧
      (¬(t_min ≤ s.root1 r ∧ s.root1 r ≤ t_max) →
        ¬(t_min ≤ s.root2 r ∧ s.root2 r ≤ t_max) →
        s.hit r t_min t_max = none)) ∧
    (∀ hrec, s.hit r t_min t_max = some hrec → t_min ≤ hrec.t ∧ hrec.t ≤ t_max) := by
  refine ⟨?_, fun hd => ⟨s.root1_le_root2 r ha, ?_, ?_, ?_⟩,
    fun hrec h => Sphere.hit_valid s r h⟩
  · intro hneg
    rw [Sphere.hit_eq_none_iff, Sphere.hitRoot_eq_none_iff]
    exact Or.inl hneg
  · intro h1
    refine ⟨s.mkRec r (s.root1 r), ?_, Sphere.mkRec_t s r _⟩
    exact (Sphere.hit_eq_some_iff s r).mpr
      ⟨s.root1 r, (Sphere.hitRoot_eq_some_iff s r).mpr
        ⟨hd, Or.inl ⟨rfl, h1.1, h1.2⟩⟩, rfl⟩
  · intro h1 h2
    push_neg at h1
    refine ⟨s.mkRec r (s.root2 r), ?_, Sphere.mkRec_t s r _⟩
    refine (Sphere.hit_eq_some_iff s r).mpr
      ⟨s.root2 r, (Sphere.hitRoot_eq_some_iff s r).mpr
        ⟨hd, Or.inr ⟨rfl, ?_, h2.1, h2.2⟩⟩, rfl⟩
    rcases le_or_lt t_min (s.root1 r) with hlo | hlo
    · exact Or.inr (lt_of_not_le fun hcontra => absurd (h1 hlo) (not_lt.mpr hcontra))
    · exact Or.inl hlo
  · intro h1 h2
    push_neg at h1 h2
    rw [Sphere.hit_eq_none_iff, Sphere.hitRoot_eq_none_iff]
    refine Or.inr ⟨?_, ?_⟩
    · rcases le_or_lt t_min (s.root1 r) with hlo | hlo
      · exact Or.inr (h1 hlo)
      · exact Or.inl hlo
    · rcases le_or_lt t_min (s.root2 r) with hlo | hlo
      · exact Or.inr (h2 hlo)
      · exact Or.inl hlo

/- ## The composite-list fold -/

theorem hittableList_hit_eq_foldl {A M : Type}
    (objHit : A → Ray → ℝ → ℝ → Option (HitRecord M)) (objects : List A)
    (r : Ray) (t_min t_max : ℝ) :
    HittableList.hit objHit objects r t_min t_max =
      (objects.foldl (hitStep objHit r t_min)
        ((none : Option (HitRecord M)), t_max)).1 := rfl

/-- A hit found under a narrowed upper bound is the member's hit under
the full bound as well. -/
theorem hit_full_lift {A M : Type}
    {objHit : A → Ray → ℝ → ℝ → Option (HitRecord M)} {r : Ray} {t_min : ℝ}
    (hnm : HitNoneMono objHit r t_min) (hsm : HitSomeMono objHit r t_min)
    (hcut : HitCut objHit r t_min) {x : A} {tm t_max : ℝ} {hrec : HitRecord M}
    (hle : tm ≤ t_max) (h : objHit x r t_min tm = some hrec) :
    objHit x r t_min t_max = some hrec := by
  cases hfull : objHit x r t_min t_max with
  | none =>
    have := hnm x t_max tm hle hfull
    rw [h] at this
    exact absurd this (by simp)
  | some hrec' =>
    rcases le_or_lt hrec'.t tm with hta | hta
    · have := hsm x t_max tm hrec' hle hfull hta
      rw [h] at this
      injection this with this
      rw [this]
    · have := hcut x t_max tm hrec' hle hfull hta
      rw [h] at this
      exact absurd this (by simp)

/-- A member that misses under a narrowed upper bound has any
full-bound hit strictly beyond that bound. -/
theorem hit_none_bound {A M : Type}
    {objHit : A → Ray → ℝ → ℝ → Option (HitRecord M)} {r : Ray} {t_min : ℝ}
    (hsm : HitSomeMono objHit r t_min) {x : A} {tm t_max : ℝ}
    {hrec' : HitRecord M} (hle : tm ≤ t_max)
    (hnone : objHit x r t_min tm = none)
    (hsome : objHit x r t_min t_max = some hrec') : tm < hrec'.t := by
  by_contra hh
  push_neg at hh
  have := hsm x t_max tm hrec' hle hsome hh
  rw [hnone] at this
  exact absurd this (by simp)

/-- Invariant of the `HittableList::hit` fold: starting from a
consistent accumulator, the fold returns `none` exactly when the
accumulator was empty and every member misses the full interval, and
otherwise returns a record that is some member's full-interval hit (or
the accumulator's) of minimal `t`. -/
theorem hitFold_spec {A M : Type}
    (objHit : A → Ray → ℝ → ℝ → Option (HitRecord M)) (r : Ray)
    (t_min t_max : ℝ) (hv : HitValid objHit r t_min)
    (hnm : HitNoneMono objHit r t_min) (hsm : HitSomeMono objHit r t_min)
    (hcut : HitCut objHit r t_min) (objs : List A) :
    ∀ acc : Option (HitRecord M) × ℝ,
      (acc.1 = none → acc.2 = t_max) →
      (∀ hrecA, acc.1 = some hrecA → acc.2 = hrecA.t ∧ hrecA.t ≤ t_max) →
      ((objs.foldl (hitStep objHit r t_min) acc).1 = none →
          acc.1 = none ∧ ∀ x ∈ objs, objHit x r t_min t_max = none) ∧
      (∀ hrec, (objs.foldl (hitStep objHit r t_min) acc).1 = some hrec →
          hrec.t ≤ t_max ∧
          (acc.1 = some hrec ∨ ∃ x ∈ objs, objHit x r t_min t_max = some hrec) ∧
          (∀ x ∈ objs, ∀ hrec', objHit x r t_min t_max = some hrec' →
            hrec.t ≤ hrec'.t) ∧
          (∀ hrecA, acc.1 = some hrecA → hrec.t ≤ hrecA.t)) := by
  induction objs with
  | nil =>
    intro acc hinv1 hinv2
    refine ⟨fun h => ⟨h, by simp⟩, fun hrec h => ?_⟩
    simp only [List.foldl_nil] at h
    refine ⟨(hinv2 hrec h).2, Or.inl h, by simp, fun hrecA hA => ?_⟩
    rw [h] at hA
    injection hA with hA
    rw [hA]
  | cons x₀ rest ih =>
    intro acc hinv1 hinv2
    have hacc2 : acc.2 ≤ t_max := by
      cases hacc : acc.1 with
      | none => exact le_of_eq (hinv1 hacc)
      | some hrecA =>
        have := hinv2 hrecA hacc
        rw [this.1]
        exact this.2
    rw [List.foldl_cons]
    cases hx : objHit x₀ r t_min acc.2 with
    | none =>
      have hstep : hitStep objHit r t_min acc x₀ = acc := by
        unfold hitStep
        rw [hx]
      rw [hstep]
      obtain ⟨ihnone, ihsome⟩ := ih acc hinv1 hinv2
      constructor
      · intro h
        obtain ⟨haccn, hall⟩ := ihnone h
        refine ⟨haccn, fun x hx' => ?_⟩
        rcases List.mem_cons.mp hx' with rfl | hx'
        · rw [← hinv1 haccn]
          exact hx
        · exact hall x hx'
      · intro hrec h
        obtain ⟨hbound, hprov, hmin, haccle⟩ := ihsome hrec h
        refine ⟨hbound, ?_, ?_, haccle⟩
        · rcases hprov with h' | ⟨x, hxmem, hxhit⟩
          exacts [Or.inl h', Or.inr ⟨x, List.mem_cons_of_mem _ hxmem, hxhit⟩]
        · intro x hx' hrec' hhit'
          rcases List.mem_cons.mp hx' with rfl | hx'
          · have hgt : acc.2 < hrec'.t := hit_none_bound hsm hacc2 hx hhit'
            cases hacc : acc.1 with
            | none =>
              have heq := hinv1 hacc
              linarith
            | some hrecA =>
              have h1 := haccle hrecA hacc
              have h2 := (hinv2 hrecA hacc).1
              linarith
          · exact hmin x hx' hrec' hhit'
    | some hrecN =>
      have hstep : hitStep objHit r t_min acc x₀ = (some hrecN, hrecN.t) := by
        unfold hitStep
        rw [hx]
      rw [hstep]
      have hvN := hv x₀ acc.2 hrecN hx
      have hNt : hrecN.t ≤ t_max := hvN.2.trans hacc2
      have hfullN : objHit x₀ r t_min t_max = some hrecN :=
        hit_full_lift hnm hsm hcut hacc2 hx
      obtain ⟨ihnone, ihsome⟩ := ih (some hrecN, hrecN.t)
        (fun h => absurd h (by simp))
        (fun hrecA hA => by
          injection hA with hA
          rw [← hA]
          exact ⟨rfl, hNt⟩)
      constructor
      · intro h
        obtain ⟨habs, _⟩ := ihnone h
        exact absurd habs (by simp)
      · intro hrec h
        obtain ⟨hbound, hprov, hmin, hNle⟩ := ihsome hrec h
        have hrecNle : hrec.t ≤ hrecN.t := hNle hrecN rfl
        refine ⟨hbound, ?_, ?_, ?_⟩
        · rcases hprov with h' | ⟨x, hxmem, hxhit⟩
          · have hEq : hrecN = hrec := by injection h'
            rw [← hEq]
            exact Or.inr ⟨x₀, List.mem_cons_self _ _, hfullN⟩
          · exact Or.inr ⟨x, List.mem_cons_of_mem _ hxmem, hxhit⟩
        · intro x hx' hrec' hhit'
          rcases List.mem_cons.mp hx' with rfl | hx'
          · rw [hfullN] at hhit'
            injection hhit' with hh
            rw [← hh]
            exact hrecNle
          · exact hmin x hx' hrec' hhit'
        · intro hrecA hA
          have h1 := (hinv2 hrecA hA).1
          have h2 := hvN.2
          linarith

/- ## Coherence of the scene objects -/

theorem Object.hit_is_valid (r : Ray) (t_min : ℝ) :
    HitValid Object.hit r t_min := by
  intro x tm hrec h
  cases x with
  | sphere c rad m =>
    simp only [Object.hit] at h
    exact Sphere.hit_valid _ r h
  | movingSphere c tt rad m =>
    simp only [Object.hit, MovingSphere.hit] at h
    exact Sphere.hit_valid _ r h

theorem Object.hit_is_none_mono (r : Ray) (t_min : ℝ) :
    HitNoneMono Object.hit r t_min := by
  intro x tm tm' hle h
  cases x with
  | sphere c rad m =>
    simp only [Object.hit] at h ⊢
    exact Sphere.hit_none_mono _ r hle h
  | movingSphere c tt rad m =>
    simp only [Object.hit, MovingSphere.hit] at h ⊢
    exact Sphere.hit_none_mono _ r hle h

theorem Object.hit_is_some_mono (r : Ray) (t_min : ℝ) :
    HitSomeMono Object.hit r t_min := by
  intro x tm tm' hrec hle h ht
  cases x with
  | sphere c rad m =>
    simp only [Object.hit] at h ⊢
    exact Sphere.hit_some_mono _ r hle h ht
  | movingSphere c tt rad m =>
    simp only [Object.hit, MovingSphere.hit] at h ⊢
    exact Sphere.hit_some_mono _ r hle h ht

theorem Object.hit_is_cut (r : Ray) (t_min : ℝ) (ha : 0 < rayA r) :
    HitCut Object.hit r t_min := by
  intro x tm tm' hrec hle h ht
  cases x with
  | sphere c rad m =>
    simp only [Object.hit] at h ⊢
    exact Sphere.hit_cut _ r ha hle h ht
  | movingSphere c tt rad m =>
    simp only [Object.hit, MovingSphere.hit] at h ⊢
    exact Sphere.hit_cut _ r ha hle h ht

/-- Claim C3: `HittableList::hit` over the scene's objects returns the
member hit of minimum `t` among all individual member hits within
`[t_min, t_max]`, or `None` exactly when no member hits; and the `t`
of the result does not depend on the order of the members.  The
hypothesis `0 < rayA r` (nonzero ray direction) makes the members'
quadratics genuine. -/
theorem hittableList_hit_nearest (objects : List Object) (r : Ray)
    (t_min t_max : ℝ) (ha : 0 < rayA r) :
    (HittableList.hit Object.hit objects r t_min t_max = none →
       ∀ x ∈ objects, x.hit r t_min t_max = none) ∧
    (∀ hrec, HittableList.hit Object.hit objects r t_min t_max = some hrec →
       (∃ x ∈ objects, x.hit r t_min t_max = some hrec) ∧
       ∀ x ∈ objects, ∀ hrec', x.hit r t_min t_max = some hrec' →
         hrec.t ≤ hrec'.t) ∧
    (∀ objects' : List Object, objects.Perm objects' →
       (HittableList.hit Object.hit objects r t_min t_max).map HitRecord.t =
         (HittableList.hit Object.hit objects' r t_min t_max).map HitRecord.t) := by
  have spec := fun objs : List Object =>
    hitFold_spec Object.hit r t_min t_max (Object.hit_is_valid r t_min)
      (Object.hit_is_none_mono r t_min) (Object.hit_is_some_mono r t_min)
      (Object.hit_is_cut r t_min ha) objs
      ((none : Option (HitRecord SceneMaterial)), t_max)
      (fun _ => rfl) (fun hrecA hA => absurd hA (by simp))
  refine ⟨?_, ?_, ?_⟩
  · intro h x hx
    exact ((spec objects).1 h).2 x hx
  · intro hrec h
    obtain ⟨_, hprov, hmin, _⟩ := (spec objects).2 hrec h
    rcases hprov with h' | hprov
    · exact absurd h' (by simp)
    · exact ⟨hprov, hmin⟩
  · intro objects' hperm
    cases h : HittableList.hit Object.hit objects r t_min t_max with
    | none =>
      cases h' : HittableList.hit Object.hit objects' r t_min t_max with
      | none => rfl
      | some hrec' =>
        obtain ⟨_, hprov', _, _⟩ := (spec objects').2 hrec' h'
        rcases hprov' with habs | ⟨x, hxmem, hxhit⟩
        · exact absurd habs (by simp)
        · have hxmem' : x ∈ objects := hperm.mem_iff.mpr hxmem
          have := ((spec objects).1 h).2 x hxmem'
          rw [this] at hxhit
          exact absurd hxhit (by simp)
    | some hrec =>
      cases h' : HittableList.hit Object.hit objects' r t_min t_max with
      | none =>
        obtain ⟨_, hprov, _, _⟩ := (spec objects).2 hrec h
        rcases hprov with habs | ⟨x, hxmem, hxhit⟩
        · exact absurd habs (by simp)
        · have hxmem' : x ∈ objects' := hperm.mem_iff.mp hxmem
          have := ((spec objects').1 h').2 x hxmem'
          rw [this] at hxhit
          exact absurd hxhit (by simp)
      | some hrec' =>
        obtain ⟨_, hprov, hmin, _⟩ := (spec objects).2 hrec h
        obtain ⟨_, hprov', hmin', _⟩ := (spec objects').2 hrec' h'
        have hle : hrec.t ≤ hrec'.t := by
          rcases hprov' with habs | ⟨x, hxmem, hxhit⟩
          · exact absurd habs (by simp)
          · exact hmin x (hperm.mem_iff.mpr hxmem) hrec' hxhit
        have hge : hrec'.t ≤ hrec.t := by
          rcases hprov with habs | ⟨x, hxmem, hxhit⟩
          · exact absurd habs (by simp)
          · exact hmin' x (hperm.mem_iff.mp hxmem) hrec hxhit
        simp only [Option.map_some']
        rw [le_antisymm hle hge]

/-- Claim C10: `HittableList::hit` on a list with no members returns
`None`, for any member type, member hit function, ray and interval. -/
theorem hittableList_hit_empty {A M : Type}
    (objHit : A → Ray → ℝ → ℝ → Option (HitRecord M)) (r : Ray)
    (t_min t_max : ℝ) :
    HittableList.hit objHit ([] : List A) r t_min t_max = none := rfl

/-- Claim C8: `ray_color` with depth 0 returns exactly black,
independent of the scene and of the materials' scatter laws. -/
theorem ray_color_depth_zero_black {W M : Type}
    (worldHit : W → Ray → Option (HitRecord M))
    (scatterM : M → Ray → HitRecord M → Option (Ray × Color))
    (world : W) (r : Ray) :
    ray_color worldHit scatterM world r 0 = ⟨0, 0, 0⟩ := rfl

/-- Claim C9: the Dielectric arm of `scene_loader`'s `Material::scatter`
rebuilds the hit record with `HitRecord::new` from point, normal and
`t` only, so two records agreeing on those fields but differing in
`front_face` scatter identically: the original `front_face` never
reaches `Dielectric::scatter`. -/
theorem scene_dielectric_front_face_independent (ir : ℝ) (r_in : Ray)
    (rng : RandDraws) (rec1 rec2 : HitRecord SceneMaterial)
    (hp : rec1.p = rec2.p) (hn : rec1.normal = rec2.normal)
    (ht : rec1.t = rec2.t) (hff : rec1.front_face ≠ rec2.front_face) :
    (SceneMaterial.dielectric ir).scatter r_in rec1 rng =
      (SceneMaterial.dielectric ir).scatter r_in rec2 rng := by
  simp only [SceneMaterial.scatter]
  rw [hp, hn, ht]

/-- Claim C9, witness: two concrete records differing only in
`front_face` produce the same Dielectric scatter result. -/
theorem scene_dielectric_front_face_independent_witness :
    (⟨⟨0, 0, 0⟩, ⟨0, 0, 1⟩, SceneMaterial.dielectric (3 / 2), 1, true⟩ :
        HitRecord SceneMaterial).front_face ≠
      (⟨⟨0, 0, 0⟩, ⟨0, 0, 1⟩, SceneMaterial.dielectric (3 / 2), 1, false⟩ :
        HitRecord SceneMaterial).front_face ∧
    (SceneMaterial.dielectric (3 / 2)).scatter ⟨⟨0, 0, -2⟩, ⟨0, 0, 1⟩, 0⟩
        ⟨⟨0, 0, 0⟩, ⟨0, 0, 1⟩, SceneMaterial.dielectric (3 / 2), 1, true⟩
        ⟨0, ⟨0, 0, 0⟩, ⟨0, 0, 0⟩⟩ =
      (SceneMaterial.dielectric (3 / 2)).scatter ⟨⟨0, 0, -2⟩, ⟨0, 0, 1⟩, 0⟩
        ⟨⟨0, 0, 0⟩, ⟨0, 0, 1⟩, SceneMaterial.dielectric (3 / 2), 1, false⟩
        ⟨0, ⟨0, 0, 0⟩, ⟨0, 0, 0⟩⟩ :=
  ⟨by decide,
   scene_dielectric_front_face_independent (3 / 2) ⟨⟨0, 0, -2⟩, ⟨0, 0, 1⟩, 0⟩
     ⟨0, ⟨0, 0, 0⟩, ⟨0, 0, 0⟩⟩
     ⟨⟨0, 0, 0⟩, ⟨0, 0, 1⟩, SceneMaterial.dielectric (3 / 2), 1, true⟩
     ⟨⟨0, 0, 0⟩, ⟨0, 0, 1⟩, SceneMaterial.dielectric (3 / 2), 1, false⟩
     rfl rfl rfl (by decide)⟩

/- ## Render pipeline ordering -/

theorem workerRows_succ_self (k n_cpus : ℕ) :
    workerRows (k + 1) n_cpus (k % n_cpus) =
      k :: workerRows k n_cpus (k % n_cpus) := by
  unfold workerRows
  rw [List.range_succ, List.filter_append, List.reverse_append]
  simp

theorem workerRows_succ_other (k n_cpus n : ℕ) (hne : k % n_cpus ≠ n) :
    workerRows (k + 1) n_cpus n = workerRows k n_cpus n := by
  unfold workerRows
  rw [List.range_succ, List.filter_append, List.reverse_append]
  simp [hne]

/-- Draining the collector over rows `k-1 .. 0` against channels that
hold each worker's emissions for those rows reproduces the sequential
row-major assembly. -/
theorem collectRows_correct {Pix : Type} (pixel : ℕ → ℕ → Pix) (w n_cpus : ℕ)
    (hN : 0 < n_cpus) :
    ∀ (k : ℕ) (chans : ℕ → List Pix),
      (∀ n, n < n_cpus → chans n = workerEmissions pixel w k n_cpus n) →
      collectRows w n_cpus ((List.range k).reverse) chans =
        rowsPixels pixel w ((List.range k).reverse) := by
  intro k
  induction k with
  | zero => intro chans _; rfl
  | succ k ih =>
    intro chans hchans
    have hrev : (List.range (k + 1)).reverse = k :: (List.range k).reverse := by
      rw [List.range_succ, List.reverse_append]
      rfl
    rw [hrev]
    have hkN : k % n_cpus < n_cpus := Nat.mod_lt _ hN
    have hchanK : chans (k % n_cpus) =
        (List.range w).map (pixel k) ++
          workerEmissions pixel w k n_cpus (k % n_cpus) := by
      rw [hchans _ hkN]
      unfold workerEmissions
      rw [workerRows_succ_self k n_cpus]
      rfl
    have hlen : ((List.range w).map (pixel k)).length = w := by
      rw [List.length_map, List.length_range]
    simp only [collectRows, rowsPixels]
    congr 1
    · rw [hchanK]
      exact List.take_left' hlen
    · apply ih
      intro n hn
      by_cases hEq : n = k % n_cpus
      · subst hEq
        rw [if_pos rfl, hchanK, List.drop_left' hlen]
      · rw [if_neg hEq, hchans n hn,
          workerEmissions, workerEmissions,
          workerRows_succ_other k n_cpus n (fun hc => hEq hc.symm)]

/-- Claim C5: each worker sends its pixels to its own private FIFO
channel (worker `n` gets the rows `j ≡ n mod n_cpus`, iterated in
descending row order, columns ascending), so whatever the interleaving
of the workers, channel `n` ends up holding exactly
`workerEmissions pixel w h n_cpus n` in program order — the hypothesis
below.  The collector, reading exactly `w` pixels from channel
`j % n_cpus` for `j` from `h - 1` down to `0`, then assembles exactly
the sequential row-major image, regardless of relative worker speed. -/
theorem render_pipeline_ordered {Pix : Type} (pixel : ℕ → ℕ → Pix)
    (w h n_cpus : ℕ) (hN : 0 < n_cpus) (chans : ℕ → List Pix)
    (hchans : ∀ n, n < n_cpus → chans n = workerEmissions pixel w h n_cpus n) :
    assembleImage w h n_cpus chans = sequentialImage pixel w h := by
  unfold assembleImage sequentialImage
  exact collectRows_correct pixel w n_cpus hN h chans hchans

/-- Claim C5, witness: a 3-row, 2-column image rendered by 2 workers. -/
theorem render_pipeline_ordered_witness :
    0 < 2 ∧
    assembleImage 2 3 2 (workerEmissions (fun j i => (j, i)) 2 3 2) =
      sequentialImage (fun j i => (j, i)) 2 3 :=
  ⟨by decide,
   render_pipeline_ordered (fun j i => (j, i)) 2 3 2 (by decide) _
     (fun _ _ => rfl)⟩

/-- Claim C4, witness: the ray from the origin along -z against the
sphere of radius 1/2 centered at (0,0,-1) has a genuine quadratic
(`a = 1 > 0`), nonnegative discriminant, and its near root 1/2 lies in
`[0, 1]`: the hit is reported at `t = 1/2`. -/
theorem sphere_hit_quadratic_roots_witness :
    0 < rayA ⟨⟨0, 0, 0⟩, ⟨0, 0, -1⟩, 0⟩ ∧
    ∃ hrec, (⟨⟨0, 0, -1⟩, 1 / 2, ()⟩ : Sphere Unit).hit
        ⟨⟨0, 0, 0⟩, ⟨0, 0, -1⟩, 0⟩ 0 1 = some hrec ∧ hrec.t = 1 / 2 := by
  have ha : 0 < rayA ⟨⟨0, 0, 0⟩, ⟨0, 0, -1⟩, 0⟩ := by
    norm_num [rayA, length_squared, Vec3.dot]
  have hd : (⟨⟨0, 0, -1⟩, 1 / 2, ()⟩ : Sphere Unit).disc
      ⟨⟨0, 0, 0⟩, ⟨0, 0, -1⟩, 0⟩ = 1 / 4 := by
    norm_num [Sphere.disc, Sphere.halfB, Sphere.cVal, rayA, length_squared,
      Vec3.dot, Vec3.sub_def]
  have hs : Real.sqrt (1 / 4 : ℝ) = 1 / 2 := by
    rw [show (1 / 4 : ℝ) = (1 / 2) ^ 2 by norm_num,
      Real.sqrt_sq (by norm_num : (0 : ℝ) ≤ 1 / 2)]
  have hroot : (⟨⟨0, 0, -1⟩, 1 / 2, ()⟩ : Sphere Unit).root1
      ⟨⟨0, 0, 0⟩, ⟨0, 0, -1⟩, 0⟩ = 1 / 2 := by
    rw [Sphere.root1, hd, hs]
    norm_num [Sphere.halfB, rayA, length_squared, Vec3.dot, Vec3.sub_def]
  refine ⟨ha, ?_⟩
  obtain ⟨_, hpos, _⟩ := sphere_hit_quadratic_roots
    (⟨⟨0, 0, -1⟩, 1 / 2, ()⟩ : Sphere Unit) ⟨⟨0, 0, 0⟩, ⟨0, 0, -1⟩, 0⟩ 0 1 ha
  obtain ⟨_, h1, _, _⟩ := hpos (by rw [hd]; norm_num)
  obtain ⟨hrec, hhit, hrt⟩ := h1 (by rw [hroot]; norm_num)
  exact ⟨hrec, hhit, by rw [hrt, hroot]⟩

/-- Claim C3, witness: the nearest-hit characterization instantiated
on a one-sphere scene and the ray from the origin along -z. -/
theorem hittableList_hit_nearest_witness :
    0 < rayA ⟨⟨0, 0, 0⟩, ⟨0, 0, -1⟩, 0⟩ ∧
    ((HittableList.hit Object.hit
        [Object.sphere ⟨0, 0, -1⟩ (1 / 2) (SceneMaterial.dielectric (3 / 2))]
        ⟨⟨0, 0, 0⟩, ⟨0, 0, -1⟩, 0⟩ 0 1 = none →
       ∀ x ∈ [Object.sphere ⟨0, 0, -1⟩ (1 / 2)
           (SceneMaterial.dielectric (3 / 2))],
         x.hit ⟨⟨0, 0, 0⟩, ⟨0, 0, -1⟩, 0⟩ 0 1 = none) ∧
     (∀ hrec, HittableList.hit Object.hit
        [Object.sphere ⟨0, 0, -1⟩ (1 / 2) (SceneMaterial.dielectric (3 / 2))]
        ⟨⟨0, 0, 0⟩, ⟨0, 0, -1⟩, 0⟩ 0 1 = some hrec →
       (∃ x ∈ [Object.sphere ⟨0, 0, -1⟩ (1 / 2)
           (SceneMaterial.dielectric (3 / 2))],
         x.hit ⟨⟨0, 0, 0⟩, ⟨0, 0, -1⟩, 0⟩ 0 1 = some hrec) ∧
       ∀ x ∈ [Object.sphere ⟨0, 0, -1⟩ (1 / 2)
           (SceneMaterial.dielectric (3 / 2))],
         ∀ hrec', x.hit ⟨⟨0, 0, 0⟩, ⟨0, 0, -1⟩, 0⟩ 0 1 = some hrec' →
           hrec.t ≤ hrec'.t) ∧
     (∀ objects' : List Object,
       List.Perm [Object.sphere ⟨0, 0, -1⟩ (1 / 2)
           (SceneMaterial.dielectric (3 / 2))] objects' →
       (HittableList.hit Object.hit
          [Object.sphere ⟨0, 0, -1⟩ (1 / 2) (SceneMaterial.dielectric (3 / 2))]
          ⟨⟨0, 0, 0⟩, ⟨0, 0, -1⟩, 0⟩ 0 1).map HitRecord.t =
         (HittableList.hit Object.hit objects'
            ⟨⟨0, 0, 0⟩, ⟨0, 0, -1⟩, 0⟩ 0 1).map HitRecord.t)) :=
  ⟨by norm_num [rayA, length_squared, Vec3.dot],
   hittableList_hit_nearest
     [Object.sphere ⟨0, 0, -1⟩ (1 / 2) (SceneMaterial.dielectric (3 / 2))]
     ⟨⟨0, 0, 0⟩, ⟨0, 0, -1⟩, 0⟩ 0 1
     (by norm_num [rayA, length_squared, Vec3.dot])⟩
